import Mathlib

/-!
Shallow embedding of the blog gRPC server from `src/main.go` and `src/blog.proto`.

The program is a read-modify-write store over a single JSON file `posts.json`:
- `loadPost` reads the file and unmarshals a JSON array into a slice of posts;
- `savePosts` marshals the slice back and rewrites the file;
- handler `GetPosts` loads, increments every post's `ViewCount` (Go `int64`,
  so two's-complement wraparound) and stamps `LastViewed` with today's date,
  saves, and returns the mutated collection;
- handler `CreatePost` builds a new post from the request (stamping
  `CreatedAt`/`LastViewed` with today, `ViewCount = 0`), appends it, saves,
  and returns the new post alone.

The file system and clock are modelled by an explicit environment `Env`:
the file content (missing, syntactically invalid bytes, or a JSON value),
today's date string (Go `time.Now().Format("2006-01-02")`), and a flag for
whether the write in `os.WriteFile` fails.  `encoding/json` is modelled at
the JSON-value level: a `Json` AST, `marshalPosts` for `json.MarshalIndent`
and `unmarshalPosts` for `json.Unmarshal` into `[]*pb.Post` (tolerant of
missing fields and of a top-level `null`, exactly as the Go library is).
-/

namespace Blog

/-- Message `pb.Post` from `src/blog.proto` (message Post, fields 1..6).
`ViewCount` is a Go `int64`; we use `Int` and wrap explicitly where the
code does arithmetic. -/
structure Post where
  Title : String
  Content : String
  CreatedAt : String
  Author : String
  ViewCount : Int
  LastViewed : String
deriving Repr, DecidableEq

/-- Message `pb.CreatePostRequest` from `src/blog.proto` (message CreatePostRequest). -/
structure CreatePostRequest where
  Title : String
  Content : String
  CreatedAt : String
  Author : String
deriving Repr, DecidableEq

/-- Smallest Go `int64` value. -/
def int64Min : Int := -(2 ^ 63)

/-- Largest Go `int64` value. -/
def int64Max : Int := 2 ^ 63 - 1

/-- Two's-complement reduction into the `int64` range: Go `int64` addition
is `wrap64` of the mathematical sum. -/
def wrap64 (x : Int) : Int := (x + 2 ^ 63) % 2 ^ 64 - 2 ^ 63

/-- JSON values, the abstraction level at which `encoding/json` is modelled.
Numbers are integers only: the only numeric field in the schema is the
`int64` `ViewCount`. -/
inductive Json where
  | null : Json
  | str (s : String) : Json
  | num (n : Int) : Json
  | arr (elems : List Json) : Json
  | obj (fields : List (String × Json)) : Json
deriving Repr

/-- Errors the embedded fragment can produce.  In Go every one of these is
built with `status.Errorf(codes.Internal, ...)` or is a raw `os` error; the
constructors record which source line produced it, and `errMessage` records
the distinct message text. -/
inductive Err where
  | readError : Err
  | parseError : Err
  | writeError : Err
  | internalWrap (msg : String) (cause : Err) : Err
deriving Repr, DecidableEq

/-- The message text attached to each error at its creation site in
`src/main.go`. -/
def errMessage : Err → String
  | .readError => "failed to read posts file"
  | .parseError => "failed to parse post data"
  | .writeError => "write posts.json"
  | .internalWrap msg _ => msg

/-- State of the backing file `posts.json`: absent, present but not valid
JSON (so `json.Unmarshal` fails at the syntax level), or a JSON value. -/
inductive FileContent where
  | missing : FileContent
  | invalid (raw : String) : FileContent
  | json (v : Json) : FileContent
deriving Repr

/-- The ambient world a single handler call runs in: the current file
content, today's date string, and whether the `os.WriteFile` call fails. -/
structure Env where
  file : FileContent
  today : String
  writeFails : Bool
deriving Repr

/-- Model of `json.Marshal` of one `*pb.Post`: an object with the six struct fields
in declaration order (the persisted layout named in the schema). -/
def marshalPost (p : Post) : Json :=
  .obj [("Title", .str p.Title), ("Content", .str p.Content),
        ("CreatedAt", .str p.CreatedAt), ("Author", .str p.Author),
        ("ViewCount", .num p.ViewCount), ("LastViewed", .str p.LastViewed)]

/-- Model of `json.MarshalIndent(posts.Posts, ...)` at the JSON-value level: the
array of marshalled posts. -/
def marshalPosts (ps : List Post) : Json :=
  .arr (ps.map marshalPost)

/-- Look up a field of a JSON object by key (Go matches struct fields by
tag name). -/
def lookupField (fields : List (String × Json)) (key : String) : Option Json :=
  match fields with
  | [] => none
  | (k, v) :: rest => if k = key then some v else lookupField rest key

/-- Model of `json.Unmarshal` into a `string` struct field: a missing field or a
JSON `null` leaves the zero value `""`; a JSON string is taken as is; any
other shape is a type error. -/
def asString (j : Option Json) : Option String :=
  match j with
  | none => some ""
  | some .null => some ""
  | some (.str s) => some s
  | some _ => none

/-- Model of `json.Unmarshal` into an `int64` struct field: missing or `null` leaves
the zero value `0`; an integer is accepted iff it fits in `int64` (Go
reports an overflow error otherwise); any other shape is a type error. -/
def asInt64 (j : Option Json) : Option Int :=
  match j with
  | none => some 0
  | some .null => some 0
  | some (.num n) => if int64Min ≤ n ∧ n ≤ int64Max then some n else none
  | some _ => none

/-- Model of `json.Unmarshal` of one element of the array into a `*pb.Post`.
Non-object elements are rejected.  (A JSON `null` element would in Go
produce a nil pointer that the handlers later dereference, crashing the
call; that path lies outside the embedded fragment and is modelled as an
unmarshal failure.) -/
def unmarshalPost (j : Json) : Option Post :=
  match j with
  | .obj fields => do
      let t ← asString (lookupField fields "Title")
      let c ← asString (lookupField fields "Content")
      let ca ← asString (lookupField fields "CreatedAt")
      let a ← asString (lookupField fields "Author")
      let vc ← asInt64 (lookupField fields "ViewCount")
      let lv ← asString (lookupField fields "LastViewed")
      pure ⟨t, c, ca, a, vc, lv⟩
  | _ => none

/-- Model of `json.Unmarshal(data, &postsSlice)` for `postsSlice : []*pb.Post`:
a top-level `null` leaves the slice nil (here: the empty list) with no
error; an array is unmarshalled element by element; anything else is a
format error. -/
def unmarshalPosts (j : Json) : Option (List Post) :=
  match j with
  | .null => some []
  | .arr elems => elems.mapM unmarshalPost
  | _ => none

/-- Function `loadPost` (src/main.go lines 181-197): read the file — a missing or
unreadable file yields `status.Errorf(codes.Internal, "failed to read posts
file: %v", err)` — then `json.Unmarshal` the bytes — a failure yields
`status.Errorf(codes.Internal, "failed to parse post data %v", err)`. -/
def loadPost (file : FileContent) : Except Err (List Post) :=
  match file with
  | .missing => .error .readError
  | .invalid _ => .error .parseError
  | .json v =>
    match unmarshalPosts v with
    | none => .error .parseError
    | some ps => .ok ps

/-- Function `savePosts` (src/main.go lines 172-179): marshal the slice (cannot fail
for these types) and `os.WriteFile` it, replacing the whole file; a failed
write returns the raw `os` error. -/
def savePosts (env : Env) (ps : List Post) : Except Err FileContent :=
  if env.writeFails then .error .writeError
  else .ok (.json (marshalPosts ps))

/-- The loop body of `GetPosts` (src/main.go lines 130-134):
`post.ViewCount += 1` (Go `int64` addition, hence `wrap64`) and
`post.LastViewed = time.Now().Format("2006-01-02")`. -/
def touch (today : String) (p : Post) : Post :=
  { p with ViewCount := wrap64 (p.ViewCount + 1), LastViewed := today }

/-- Handler `server.GetPosts` (src/main.go lines 104-141): load (a load
error is returned to the caller unchanged), touch every post in order, save
(a save error is wrapped as `status.Errorf(codes.Internal, "failed to save
posts %v", err)`), return the mutated collection.  The resulting file
content is carried in the result so that persistence is observable. -/
def GetPosts (env : Env) : Except Err (List Post × FileContent) :=
  match loadPost env.file with
  | .error e => .error e
  | .ok ps =>
    let touched := ps.map (touch env.today)
    match savePosts env touched with
    | .error e => .error (.internalWrap "failed to save posts" e)
    | .ok f => .ok (touched, f)

/-- Handler `server.CreatePost` (src/main.go lines 144-170): build the new
post from the request — `CreatedAt` and `LastViewed` are stamped with
today, `ViewCount` is 0, and the request's `CreatedAt` field is never read
— then load (a load error is wrapped as `status.Errorf(codes.Internal,
"failed to load posts: %v", err)`), append at the end, save (a save error
is wrapped as "failed to save posts"), and return the new post alone. -/
def CreatePost (env : Env) (req : CreatePostRequest) :
    Except Err (Post × FileContent) :=
  let newPost : Post :=
    ⟨req.Title, req.Content, env.today, req.Author, 0, env.today⟩
  match loadPost env.file with
  | .error e => .error (.internalWrap "failed to load posts" e)
  | .ok ps =>
    match savePosts env (ps ++ [newPost]) with
    | .error e => .error (.internalWrap "failed to save posts" e)
    | .ok f => .ok (newPost, f)

/-- A collection is representable in Go iff every `ViewCount` fits in
`int64`. -/
def wellFormed (ps : List Post) : Prop :=
  ∀ p ∈ ps, int64Min ≤ p.ViewCount ∧ p.ViewCount ≤ int64Max

instance (ps : List Post) : Decidable (wellFormed ps) := by
  unfold wellFormed; infer_instance

/-! ### Helper lemmas -/

theorem wrap64_mem (x : Int) : int64Min ≤ wrap64 x ∧ wrap64 x ≤ int64Max := by
  unfold wrap64 int64Min int64Max
  have h1 : (0 : Int) ≤ (x + 2 ^ 63) % 2 ^ 64 := Int.emod_nonneg _ (by norm_num)
  have h2 : (x + 2 ^ 63) % 2 ^ 64 < 2 ^ 64 := Int.emod_lt_of_pos _ (by norm_num)
  omega

theorem wrap64_eq_self (x : Int) (h1 : int64Min ≤ x) (h2 : x ≤ int64Max) :
    wrap64 x = x := by
  unfold wrap64
  simp only [int64Min, int64Max] at h1 h2
  have : (x + 2 ^ 63) % 2 ^ 64 = x + 2 ^ 63 :=
    Int.emod_eq_of_lt (by omega) (by omega)
  omega

theorem touch_viewCount (d : String) (p : Post) :
    (touch d p).ViewCount = wrap64 (p.ViewCount + 1) := rfl

theorem touch_fields (d : String) (p : Post) :
    (touch d p).Title = p.Title ∧ (touch d p).Content = p.Content ∧
    (touch d p).CreatedAt = p.CreatedAt ∧ (touch d p).Author = p.Author ∧
    (touch d p).LastViewed = d := by
  refine ⟨rfl, rfl, rfl, rfl, rfl⟩

theorem unmarshalPost_marshalPost (p : Post)
    (h1 : int64Min ≤ p.ViewCount) (h2 : p.ViewCount ≤ int64Max) :
    unmarshalPost (marshalPost p) = some p := by
  simp [marshalPost, unmarshalPost, lookupField, asString, asInt64, h1, h2]

theorem unmarshalPosts_marshalPosts (ps : List Post) (h : wellFormed ps) :
    unmarshalPosts (marshalPosts ps) = some ps := by
  induction ps with
  | nil => rfl
  | cons p rest ih =>
    have hp := h p (List.mem_cons_self p rest)
    have hrest : wellFormed rest := fun q hq => h q (List.mem_cons_of_mem _ hq)
    have hr := ih hrest
    simp only [marshalPosts, unmarshalPosts, List.map_cons, List.mapM_cons] at hr ⊢
    rw [unmarshalPost_marshalPost p hp.1 hp.2]
    simp only [Option.bind_eq_bind, Option.some_bind] at hr ⊢
    rw [hr]
    rfl

theorem loadPost_marshalPosts (ps : List Post) (h : wellFormed ps) :
    loadPost (.json (marshalPosts ps)) = .ok ps := by
  simp only [loadPost, unmarshalPosts_marshalPosts ps h]

theorem wellFormed_map_touch (d : String) (ps : List Post) :
    wellFormed (ps.map (touch d)) := by
  intro q hq
  obtain ⟨p, _, rfl⟩ := List.mem_map.mp hq
  exact wrap64_mem _

theorem getPosts_ok (env : Env) (ps : List Post)
    (hload : loadPost env.file = .ok ps) (hw : env.writeFails = false) :
    GetPosts env = .ok (ps.map (touch env.today),
      .json (marshalPosts (ps.map (touch env.today)))) := by
  unfold GetPosts savePosts
  rw [hload, hw]
  simp

theorem createPost_ok (env : Env) (req : CreatePostRequest) (ps : List Post)
    (hload : loadPost env.file = .ok ps) (hw : env.writeFails = false) :
    CreatePost env req =
      .ok (⟨req.Title, req.Content, env.today, req.Author, 0, env.today⟩,
        .json (marshalPosts
          (ps ++ [⟨req.Title, req.Content, env.today, req.Author, 0, env.today⟩]))) := by
  unfold CreatePost savePosts
  rw [hload, hw]
  simp

theorem asInt64_mem (j : Option Json) (n : Int) (h : asInt64 j = some n) :
    int64Min ≤ n ∧ n ≤ int64Max := by
  rcases j with _ | j
  · simp only [asInt64, Option.some.injEq] at h
    subst h
    constructor <;> norm_num [int64Min, int64Max]
  · cases j with
    | null =>
      simp only [asInt64, Option.some.injEq] at h
      subst h
      constructor <;> norm_num [int64Min, int64Max]
    | num m =>
      simp only [asInt64] at h
      split at h
      · rename_i hcond
        obtain rfl : m = n := by injection h
        exact hcond
      · simp at h
    | str s => simp [asInt64] at h
    | arr l => simp [asInt64] at h
    | obj l => simp [asInt64] at h

theorem unmarshalPost_viewCount_mem (j : Json) (p : Post)
    (h : unmarshalPost j = some p) :
    int64Min ≤ p.ViewCount ∧ p.ViewCount ≤ int64Max := by
  cases j with
  | obj fields =>
    simp only [unmarshalPost, Option.bind_eq_bind, bind, Option.bind_eq_some,
      pure, Option.some.injEq] at h
    obtain ⟨t, _, c, _, ca, _, a, _, vc, hvc, lv, _, hp⟩ := h
    subst hp
    exact asInt64_mem _ vc hvc
  | null => simp [unmarshalPost] at h
  | str s => simp [unmarshalPost] at h
  | num n => simp [unmarshalPost] at h
  | arr l => simp [unmarshalPost] at h

theorem mapM_unmarshalPost_wellFormed (js : List Json) (ps : List Post)
    (h : js.mapM unmarshalPost = some ps) : wellFormed ps := by
  induction js generalizing ps with
  | nil =>
    simp only [List.mapM_nil, pure, Option.some.injEq] at h
    subst h
    intro p hp
    simp at hp
  | cons j js ih =>
    simp only [List.mapM_cons, Option.bind_eq_bind, bind, Option.bind_eq_some,
      pure, Option.some.injEq] at h
    obtain ⟨p, hp, rest, hrest, hps⟩ := h
    subst hps
    intro q hq
    rcases List.mem_cons.mp hq with hq | hq
    · exact hq ▸ unmarshalPost_viewCount_mem j p hp
    · exact ih rest hrest q hq

theorem loadPost_wellFormed (file : FileContent) (ps : List Post)
    (h : loadPost file = .ok ps) : wellFormed ps := by
  cases file with
  | missing => simp [loadPost] at h
  | invalid raw => simp [loadPost] at h
  | json v =>
    unfold loadPost at h
    cases v with
    | null =>
      simp only [unmarshalPosts, Except.ok.injEq] at h
      subst h
      intro p hp
      simp at hp
    | arr elems =>
      simp only [unmarshalPosts] at h
      rcases helems : elems.mapM unmarshalPost with _ | qs
      · rw [helems] at h; simp at h
      · rw [helems] at h
        simp only [Except.ok.injEq] at h
        exact h ▸ mapM_unmarshalPost_wellFormed elems qs helems
    | str s => simp [unmarshalPosts] at h
    | num n => simp [unmarshalPosts] at h
    | obj fields => simp [unmarshalPosts] at h

/-! ### Concrete data for witnesses and counterexamples -/

/-- A sample stored post. -/
def samplePost : Post := ⟨"A", "hello", "2024-01-01", "ann", 3, "2024-01-02"⟩

/-- A world whose file holds exactly `samplePost`. -/
def sampleEnv : Env := ⟨.json (marshalPosts [samplePost]), "2026-10-11", false⟩

/-- A sample create request; its `CreatedAt` field is deliberately not
today's date. -/
def sampleReq : CreatePostRequest := ⟨"B", "world", "1999-12-31", "bob"⟩

/-! ### Claim theorems -/

/-- C1: for every collection successfully loaded from the backing file,
`GetPosts` returns every stored post in stored order with `ViewCount`
incremented by exactly 1 (`int64` increment, i.e. `wrap64 (v + 1)`, which
equals `v + 1` whenever `v` is not the largest `int64`) and `LastViewed`
set to today, persists exactly that mutated collection, and changes no
other field of any post. -/
theorem getPosts_lists_and_touches (env : Env) (ps : List Post)
    (hload : loadPost env.file = .ok ps) (hw : env.writeFails = false) :
    GetPosts env = .ok (ps.map (touch env.today),
      .json (marshalPosts (ps.map (touch env.today)))) ∧
    ∀ p ∈ ps,
      (touch env.today p).ViewCount = wrap64 (p.ViewCount + 1) ∧
      (p.ViewCount ≠ int64Max → (touch env.today p).ViewCount = p.ViewCount + 1) ∧
      (touch env.today p).LastViewed = env.today ∧
      (touch env.today p).Title = p.Title ∧
      (touch env.today p).Content = p.Content ∧
      (touch env.today p).CreatedAt = p.CreatedAt ∧
      (touch env.today p).Author = p.Author := by
  refine ⟨getPosts_ok env ps hload hw, fun p hp => ?_⟩
  have hmem := loadPost_wellFormed env.file ps hload p hp
  refine ⟨rfl, fun hmax => ?_, rfl, rfl, rfl, rfl, rfl⟩
  show wrap64 (p.ViewCount + 1) = p.ViewCount + 1
  refine wrap64_eq_self _ ?_ ?_ <;>
    simp only [int64Min, int64Max] at hmem hmax ⊢ <;> omega

/-- Witness for C1 at a concrete one-post store. -/
theorem getPosts_lists_and_touches_witness :
    GetPosts sampleEnv = .ok ([touch "2026-10-11" samplePost],
      .json (marshalPosts [touch "2026-10-11" samplePost])) :=
  (getPosts_lists_and_touches sampleEnv [samplePost] rfl rfl).1

/-- C2: `CreatePost` builds a post whose `Title`, `Content`, `Author` come
from the request, whose `ViewCount` is 0 and whose `CreatedAt` and
`LastViewed` are today (the request's `CreatedAt` is ignored: changing it
changes nothing); the post is appended at the end, prior posts are kept
unchanged and in order, the result is persisted, and the new post alone is
returned (the `FileContent` component of the result models the side effect
on the file, not a returned value). -/
theorem createPost_spec (env : Env) (req : CreatePostRequest) (ps : List Post)
    (hload : loadPost env.file = .ok ps) (hw : env.writeFails = false) :
    CreatePost env req =
      .ok (⟨req.Title, req.Content, env.today, req.Author, 0, env.today⟩,
        .json (marshalPosts
          (ps ++ [⟨req.Title, req.Content, env.today, req.Author, 0, env.today⟩]))) ∧
    ∀ ca, CreatePost env { req with CreatedAt := ca } = CreatePost env req :=
  ⟨createPost_ok env req ps hload hw, fun _ => rfl⟩

/-- Witness for C2 at a concrete one-post store. -/
theorem createPost_spec_witness :
    CreatePost sampleEnv sampleReq =
      .ok (⟨"B", "world", "2026-10-11", "bob", 0, "2026-10-11"⟩,
        .json (marshalPosts
          [samplePost, ⟨"B", "world", "2026-10-11", "bob", 0, "2026-10-11"⟩])) :=
  (createPost_spec sampleEnv sampleReq [samplePost] rfl rfl).1

/-- C3: `loadPost` fails with the read-error kind when the file is missing,
with the distinct parse-error kind when the bytes are not a well-formed
serialized post sequence (invalid JSON, or JSON of the wrong shape), and a
missing file is a hard failure, never an empty collection. -/
theorem loadPost_error_kinds :
    loadPost .missing = .error .readError ∧
    (∀ raw, loadPost (.invalid raw) = .error .parseError) ∧
    (∀ v, unmarshalPosts v = none → loadPost (.json v) = .error .parseError) ∧
    Err.readError ≠ Err.parseError ∧
    errMessage .readError ≠ errMessage .parseError ∧
    ∀ ps, loadPost .missing ≠ .ok ps := by
  refine ⟨rfl, fun raw => rfl, fun v hv => ?_, by decide, by decide,
    fun ps h => by simp [loadPost] at h⟩
  simp [loadPost, hv]

/-- Witness for C3: a file holding the JSON string `"not json"` (not an
array) is a parse error. -/
theorem loadPost_error_kinds_witness :
    loadPost (.json (.str "not json")) = .error .parseError :=
  loadPost_error_kinds.2.2.1 (.str "not json") rfl

/-- C4: round-trip — for every well-formed collection (every `ViewCount`
fits in `int64`), saving and then loading yields the identical collection:
order, strings, and 64-bit counters preserved exactly. -/
theorem save_load_roundtrip (env : Env) (c : List Post)
    (hwf : wellFormed c) (hw : env.writeFails = false) :
    ∃ f, savePosts env c = .ok f ∧ loadPost f = .ok c := by
  refine ⟨.json (marshalPosts c), ?_, loadPost_marshalPosts c hwf⟩
  simp [savePosts, hw]

/-- Witness for C4 at a concrete two-post collection. -/
theorem save_load_roundtrip_witness :
    wellFormed [samplePost, ⟨"", "", "", "", 0, ""⟩] ∧
    ∃ f, savePosts sampleEnv [samplePost, ⟨"", "", "", "", 0, ""⟩] = .ok f ∧
      loadPost f = .ok [samplePost, ⟨"", "", "", "", 0, ""⟩] :=
  ⟨by decide, save_load_roundtrip sampleEnv _ (by decide) rfl⟩

/-- C5 counterexample: on a missing file, `CreatePost` does not return the
load error unchanged — it wraps it ("failed to load posts: %v", src/main.go
line 160), so the claim that both mutations propagate Load errors unchanged
is false. -/
theorem createPost_wraps_load_error :
    CreatePost ⟨.missing, "2026-10-11", false⟩ sampleReq =
      .error (.internalWrap "failed to load posts" .readError) ∧
    Err.internalWrap "failed to load posts" .readError ≠ Err.readError :=
  ⟨rfl, by decide⟩

/-- C5 (amended): in `GetPosts` a Load error is returned to the caller
unchanged; in `CreatePost` a Load error is wrapped as an internal-failure
error carrying the cause; in both handlers a Save error is wrapped as an
internal-failure error carrying the cause; in every failure case the
operation returns no result value (`Except.error`). -/
theorem mutation_error_propagation (env : Env) :
    (∀ e, loadPost env.file = .error e → GetPosts env = .error e) ∧
    (∀ req e, loadPost env.file = .error e →
      CreatePost env req = .error (.internalWrap "failed to load posts" e)) ∧
    (∀ ps, loadPost env.file = .ok ps → env.writeFails = true →
      GetPosts env = .error (.internalWrap "failed to save posts" .writeError)) ∧
    (∀ req ps, loadPost env.file = .ok ps → env.writeFails = true →
      CreatePost env req =
        .error (.internalWrap "failed to save posts" .writeError)) := by
  refine ⟨fun e he => ?_, fun req e he => ?_, fun ps hps hw => ?_,
    fun req ps hps hw => ?_⟩
  · unfold GetPosts
    rw [he]
  · unfold CreatePost
    rw [he]
  · unfold GetPosts savePosts
    rw [hps, hw]
    simp
  · unfold CreatePost savePosts
    rw [hps, hw]
    simp

/-- Witness for C5 (amended): all three failure shapes at concrete worlds. -/
theorem mutation_error_propagation_witness :
    GetPosts ⟨.missing, "2026-10-11", false⟩ = .error .readError ∧
    CreatePost ⟨.missing, "2026-10-11", false⟩ sampleReq =
      .error (.internalWrap "failed to load posts" .readError) ∧
    GetPosts ⟨.json (marshalPosts []), "2026-10-11", true⟩ =
      .error (.internalWrap "failed to save posts" .writeError) :=
  ⟨(mutation_error_propagation _).1 .readError rfl,
   (mutation_error_propagation _).2.1 sampleReq .readError rfl,
   (mutation_error_propagation _).2.2.1 [] rfl rfl⟩

/-- A stored post whose counter is one below the largest `int64`: one
`GetPosts` call brings it to `int64Max`, a second one wraps it negative. -/
def nearMaxPost : Post := ⟨"t", "c", "2024-01-01", "a", int64Max - 1, "2024-01-01"⟩

/-- A world whose file holds exactly `nearMaxPost`. -/
def nearMaxEnv : Env := ⟨.json (marshalPosts [nearMaxPost]), "2026-10-11", false⟩

/-- C6 counterexample: starting from a stored `ViewCount` of `2^63 - 2`,
two consecutive successful `GetPosts` calls yield `int64Max` and then
`int64Min` — the second count is not strictly greater than the first, so
strict monotonicity fails for an arbitrary stored collection. -/
theorem getPosts_twice_not_strictly_increasing :
    GetPosts nearMaxEnv =
      .ok ([⟨"t", "c", "2024-01-01", "a", int64Max, "2026-10-11"⟩],
        .json (marshalPosts [⟨"t", "c", "2024-01-01", "a", int64Max, "2026-10-11"⟩])) ∧
    GetPosts ⟨.json (marshalPosts [⟨"t", "c", "2024-01-01", "a", int64Max, "2026-10-11"⟩]),
        "2026-10-11", false⟩ =
      .ok ([⟨"t", "c", "2024-01-01", "a", int64Min, "2026-10-11"⟩],
        .json (marshalPosts [⟨"t", "c", "2024-01-01", "a", int64Min, "2026-10-11"⟩])) ∧
    ¬ (int64Max : Int) < int64Min := by
  refine ⟨rfl, rfl, by decide⟩

/-- C6 (amended): for every loaded collection, two consecutive successful
`GetPosts` calls return the first-touched and twice-touched collections;
for every post of the first result, `LastViewed` equals the invocation date
in both results, and the second `ViewCount` is strictly greater whenever
the first one is not `int64Max` (at `int64Max` the counter wraps to
`int64Min`). -/
theorem getPosts_twice_monotone (env : Env) (ps : List Post)
    (hload : loadPost env.file = .ok ps) (hw : env.writeFails = false) :
    ∃ f1, GetPosts env = .ok (ps.map (touch env.today), f1) ∧
      GetPosts ⟨f1, env.today, env.writeFails⟩ =
        .ok ((ps.map (touch env.today)).map (touch env.today),
          .json (marshalPosts ((ps.map (touch env.today)).map (touch env.today)))) ∧
      ∀ p ∈ ps.map (touch env.today),
        p.LastViewed = env.today ∧
        (touch env.today p).LastViewed = env.today ∧
        (p.ViewCount ≠ int64Max → p.ViewCount < (touch env.today p).ViewCount) := by
  refine ⟨.json (marshalPosts (ps.map (touch env.today))),
    getPosts_ok env ps hload hw, ?_, ?_⟩
  · have hload2 : loadPost (FileContent.json
        (marshalPosts (ps.map (touch env.today)))) = .ok (ps.map (touch env.today)) :=
      loadPost_marshalPosts _ (wellFormed_map_touch env.today ps)
    exact getPosts_ok ⟨_, env.today, env.writeFails⟩ _ hload2 hw
  · intro p hp
    obtain ⟨q, _, rfl⟩ := List.mem_map.mp hp
    refine ⟨rfl, rfl, fun hmax => ?_⟩
    have hmem := wrap64_mem (q.ViewCount + 1)
    have hv : (touch env.today q).ViewCount = wrap64 (q.ViewCount + 1) := rfl
    have h2 : (touch env.today (touch env.today q)).ViewCount =
        wrap64 ((touch env.today q).ViewCount + 1) := rfl
    rw [h2, wrap64_eq_self]
    · omega
    · rw [hv] at hmax ⊢
      simp only [int64Min, int64Max] at hmem hmax ⊢
      omega
    · rw [hv] at hmax ⊢
      simp only [int64Min, int64Max] at hmem hmax ⊢
      omega

/-- Witness for C6 (amended) at a concrete one-post store. -/
theorem getPosts_twice_monotone_witness :
    ∃ f1, GetPosts sampleEnv = .ok ([samplePost].map (touch sampleEnv.today), f1) ∧
      GetPosts ⟨f1, sampleEnv.today, sampleEnv.writeFails⟩ =
        .ok (([samplePost].map (touch sampleEnv.today)).map (touch sampleEnv.today),
          .json (marshalPosts
            (([samplePost].map (touch sampleEnv.today)).map (touch sampleEnv.today)))) ∧
      ∀ p ∈ [samplePost].map (touch sampleEnv.today),
        p.LastViewed = sampleEnv.today ∧
        (touch sampleEnv.today p).LastViewed = sampleEnv.today ∧
        (p.ViewCount ≠ int64Max → p.ViewCount < (touch sampleEnv.today p).ViewCount) :=
  getPosts_twice_monotone sampleEnv [samplePost] rfl rfl

/-- C7: on a file holding the empty collection, `GetPosts` succeeds,
returns the empty sequence, and the Save it performs leaves the persisted
collection empty. -/
theorem getPosts_empty_store (env : Env)
    (hfile : env.file = .json (marshalPosts [])) (hw : env.writeFails = false) :
    GetPosts env = .ok ([], .json (marshalPosts [])) := by
  have hl : loadPost env.file = .ok [] := by
    rw [hfile]
    exact loadPost_marshalPosts [] (fun p hp => by simp at hp)
  exact getPosts_ok env [] hl hw

/-- A world whose file holds the empty collection. -/
def emptyEnv : Env := ⟨.json (marshalPosts []), "2026-10-11", false⟩

/-- Witness for C7. -/
theorem getPosts_empty_store_witness :
    GetPosts emptyEnv = .ok ([], .json (marshalPosts [])) :=
  getPosts_empty_store emptyEnv rfl rfl

/-- C8: frame invariant — a successful `GetPosts` keeps every post's
`Title`, `Content`, `Author` and `CreatedAt` unchanged, removes nothing and
reorders nothing (the result is the pointwise touch of the loaded list, in
order, and exactly it is persisted); a successful `CreatePost` persists the
loaded list unchanged with the single new post appended at the end. -/
theorem frame_invariant (env : Env) (ps : List Post) (req : CreatePostRequest)
    (hload : loadPost env.file = .ok ps) (hw : env.writeFails = false) :
    (∃ out f, GetPosts env = .ok (out, f) ∧ f = .json (marshalPosts out) ∧
      out.length = ps.length ∧
      ∀ i (h1 : i < out.length) (h2 : i < ps.length),
        (out.get ⟨i, h1⟩).Title = (ps.get ⟨i, h2⟩).Title ∧
        (out.get ⟨i, h1⟩).Content = (ps.get ⟨i, h2⟩).Content ∧
        (out.get ⟨i, h1⟩).Author = (ps.get ⟨i, h2⟩).Author ∧
        (out.get ⟨i, h1⟩).CreatedAt = (ps.get ⟨i, h2⟩).CreatedAt) ∧
    (∃ q f, CreatePost env req = .ok (q, f) ∧
      f = .json (marshalPosts (ps ++ [q]))) := by
  constructor
  · refine ⟨ps.map (touch env.today), _, getPosts_ok env ps hload hw, rfl,
      List.length_map ps _, fun i h1 h2 => ?_⟩
    have hget : (ps.map (touch env.today)).get ⟨i, h1⟩ =
        touch env.today (ps.get ⟨i, h2⟩) := by
      simp [List.get_eq_getElem, List.getElem_map]
    rw [hget]
    exact ⟨rfl, rfl, rfl, rfl⟩
  · exact ⟨_, _, createPost_ok env req ps hload hw, rfl⟩

/-- Witness for C8 at a concrete one-post store. -/
theorem frame_invariant_witness :
    (∃ out f, GetPosts sampleEnv = .ok (out, f) ∧ f = .json (marshalPosts out) ∧
      out.length = [samplePost].length ∧
      ∀ i (h1 : i < out.length) (h2 : i < [samplePost].length),
        (out.get ⟨i, h1⟩).Title = ([samplePost].get ⟨i, h2⟩).Title ∧
        (out.get ⟨i, h1⟩).Content = ([samplePost].get ⟨i, h2⟩).Content ∧
        (out.get ⟨i, h1⟩).Author = ([samplePost].get ⟨i, h2⟩).Author ∧
        (out.get ⟨i, h1⟩).CreatedAt = ([samplePost].get ⟨i, h2⟩).CreatedAt) ∧
    (∃ q f, CreatePost sampleEnv sampleReq = .ok (q, f) ∧
      f = .json (marshalPosts ([samplePost] ++ [q]))) :=
  frame_invariant sampleEnv [samplePost] sampleReq rfl rfl

/-- C9: a file whose entire content is the JSON literal `null` loads
successfully as the empty collection (`json.Unmarshal` leaves the nil
slice) even though `null` is not an array of post records, and `GetPosts`
on such a file returns the empty sequence without error. -/
theorem loadPost_null_file (env : Env) (hfile : env.file = .json .null)
    (hw : env.writeFails = false) :
    loadPost env.file = .ok [] ∧
    (∀ elems, Json.null ≠ Json.arr elems) ∧
    ∃ f, GetPosts env = .ok ([], f) := by
  have hl : loadPost env.file = .ok [] := by rw [hfile]; rfl
  exact ⟨hl, fun elems h => Json.noConfusion h, _, getPosts_ok env [] hl hw⟩

/-- A world whose file content is the JSON literal `null`. -/
def nullEnv : Env := ⟨.json .null, "2026-10-11", false⟩

/-- Witness for C9. -/
theorem loadPost_null_file_witness :
    loadPost nullEnv.file = .ok [] ∧
    (∀ elems, Json.null ≠ Json.arr elems) ∧
    ∃ f, GetPosts nullEnv = .ok ([], f) :=
  loadPost_null_file nullEnv rfl rfl

/-- A stored post whose counter is the largest `int64`. -/
def maxPost : Post := ⟨"t", "c", "2024-01-01", "a", int64Max, "2024-01-01"⟩

/-- A world whose file holds exactly `maxPost`. -/
def maxEnv : Env := ⟨.json (marshalPosts [maxPost]), "2026-10-11", false⟩

/-- C10: the `ViewCount` increment is 64-bit two's-complement addition
(`wrap64` of the mathematical sum), so a successful `GetPosts` on a
collection whose `i`-th post stores `ViewCount = 2^63 - 1` returns and
persists a negative `ViewCount` (`-2^63`) for that post; nothing checks or
restores `ViewCount ≥ 0`. -/
theorem viewCount_wraparound (env : Env) (ps : List Post) (i : Nat)
    (hload : loadPost env.file = .ok ps) (hw : env.writeFails = false)
    (hi : i < ps.length) (hmax : (ps.get ⟨i, hi⟩).ViewCount = int64Max) :
    (∀ x, wrap64 x = (x + 2 ^ 63) % 2 ^ 64 - 2 ^ 63) ∧
    ∃ out f, GetPosts env = .ok (out, f) ∧ f = .json (marshalPosts out) ∧
      ∃ h2 : i < out.length,
        (out.get ⟨i, h2⟩).ViewCount = int64Min ∧ (out.get ⟨i, h2⟩).ViewCount < 0 := by
  refine ⟨fun x => rfl, ps.map (touch env.today), _,
    getPosts_ok env ps hload hw, rfl, (List.length_map ps _).symm ▸ hi, ?_, ?_⟩
  all_goals
    have hget : (ps.map (touch env.today)).get
        ⟨i, (List.length_map ps (touch env.today)).symm ▸ hi⟩ =
        touch env.today (ps.get ⟨i, hi⟩) := by
      simp [List.get_eq_getElem, List.getElem_map]
    have hvc : (touch env.today (ps.get ⟨i, hi⟩)).ViewCount =
        wrap64 ((ps.get ⟨i, hi⟩).ViewCount + 1) := rfl
    have hwrap : wrap64 (int64Max + 1) = int64Min := by decide
  · rw [hget, hvc, hmax, hwrap]
  · rw [hget, hvc, hmax, hwrap]
    decide

/-- Witness for C10 at a concrete one-post store holding `int64Max`. -/
theorem viewCount_wraparound_witness :
    (∀ x, wrap64 x = (x + 2 ^ 63) % 2 ^ 64 - 2 ^ 63) ∧
    ∃ out f, GetPosts maxEnv = .ok (out, f) ∧ f = .json (marshalPosts out) ∧
      ∃ h2 : 0 < out.length,
        (out.get ⟨0, h2⟩).ViewCount = int64Min ∧ (out.get ⟨0, h2⟩).ViewCount < 0 :=
  viewCount_wraparound maxEnv [maxPost] 0 rfl rfl (by decide) rfl

end Blog
